import Mathlib

/-!
Verification of the epflo optical-flow resampler (src/main.c).

The development shallowly embeds the two cores of the program:

* the FLO/FLOW codec (read_flow / write_flow): byte streams are lists of
  naturals, 4-byte floats are kept as opaque 32-bit words (the codec never
  does arithmetic on them), C ints are integers and signed 32-bit int
  arithmetic is modelled as twos-complement wraparound (the behaviour of
  the compiled program);
* the resampling engine inside extrapolate: sample values and the scale
  arithmetic are modelled over the rationals; at every concrete input used
  below the C float arithmetic is exact, so the rational model agrees with
  the compiled program there.
-/

/-- Source: FLOformat enum (main.c lines 68-72).  FF_LAST is only a
counter/sentinel in the C enum and never the format of a decoded file, so it
is not a constructor here. -/
inductive FLOformat
  | FF_FLO
  | FF_FLOW
  deriving DecidableEq

/-- Number of items per block: the switch on the format done both in
read_flow (lines 138-148) and extrapolate (lines 232-242). -/
def npb : FLOformat → ℕ
  | .FF_FLO => 2
  | .FF_FLOW => 3

theorem npb_pos (fmt : FLOformat) : 0 < npb fmt := by
  cases fmt <;> simp [npb]

/-- Source: struct FLOfile (main.c lines 79-84), as used by the codec.
Sample floats are kept as their 32-bit bit patterns (the codec copies them
byte for byte and never computes with them). -/
structure FLOfileW where
  w : ℤ
  h : ℤ
  fmt : FLOformat
  nmemb : ℤ
  data : List ℕ
  deriving DecidableEq

/-- Assemble a 32-bit word from four bytes, least significant first (the
native little-endian layout fread deposits an int or float into). -/
def word32 (b0 b1 b2 b3 : ℕ) : ℕ := b0 + 256 * b1 + 65536 * b2 + 16777216 * b3

/-- Reinterpret a 32-bit word as a signed C int (twos complement). -/
def toInt32 (n : ℕ) : ℤ :=
  if n % 4294967296 < 2147483648 then (n % 4294967296 : ℤ)
  else (n % 4294967296 : ℤ) - 4294967296

/-- Wraparound of signed 32-bit int arithmetic, as performed by the compiled
program for `int sz = w * h; sz *= 2;` (main.c lines 137-148). -/
def wrap32 (z : ℤ) : ℤ := (z + 2147483648) % 4294967296 - 2147483648

/-- Serialize a 32-bit word to four bytes, least significant first. -/
def encWord32 (n : ℕ) : List ℕ :=
  [n % 256, n / 256 % 256, n / 65536 % 256, n / 16777216 % 256]

/-- Serialize a C int to the four bytes fwrite emits for it. -/
def encInt32 (z : ℤ) : List ℕ := encWord32 ((z % 4294967296).toNat)

/-- Group a byte list into 32-bit words, dropping a trailing fragment; this
is how the payload bytes land in the float buffer of read_flow. -/
def toWords : List ℕ → List ℕ
  | b0 :: b1 :: b2 :: b3 :: rest => word32 b0 b1 b2 b3 :: toWords rest
  | _ => []

/-- Serialize a word buffer to bytes, the payload part of write_flow. -/
def encPayload : List ℕ → List ℕ
  | [] => []
  | s :: rest => encWord32 s ++ encPayload rest

/-- Header identification strings (main.c line 76): "PIEH" and "PIEI" as
ASCII bytes. -/
def tagBytes : FLOformat → List ℕ
  | .FF_FLO => [80, 73, 69, 72]
  | .FF_FLOW => [80, 73, 69, 73]

/-- The strncmp chain of read_flow (main.c lines 103-114). -/
def tagFormat (t0 t1 t2 t3 : ℕ) : Option FLOformat :=
  if t0 = 80 ∧ t1 = 73 ∧ t2 = 69 ∧ t3 = 72 then some .FF_FLO
  else if t0 = 80 ∧ t1 = 73 ∧ t2 = 69 ∧ t3 = 73 then some .FF_FLOW
  else none

/-- One constructor per distinct error exit of read_flow; the constructor
records which fprintf message the exit prints.  Failure to fopen the input
is modelled by the inExists flag of extrapolateExit below, not here. -/
inductive ReadErr
  | shortTag
  | invalidHeader
  | shortWidth
  | shortHeight
  | invalidDims
  | truncatedData
  deriving DecidableEq

/-- `int sz = w * h; switch ... sz *= npb;` with 32-bit wraparound
(main.c lines 137-148). -/
def szOf (fmt : FLOformat) (w h : ℤ) : ℤ := wrap32 (wrap32 (w * h) * (npb fmt : ℤ))

/-- The byte count handed to fread for the payload
(`flow->nmemb * sizeof(float)`, main.c line 155): the int nmemb is
converted to the 64-bit size_t and multiplied by 4 in size_t arithmetic. -/
def byteCount (sz : ℤ) : ℕ :=
  ((sz % 18446744073709551616).toNat * 4) % 18446744073709551616

/-- Source: read_flow (main.c lines 87-165), as a function of the bytes of
the input file. -/
def read_flow (bs : List ℕ) : Except ReadErr FLOfileW :=
  match bs with
  | t0 :: t1 :: t2 :: t3 :: r0 =>
    match tagFormat t0 t1 t2 t3 with
    | none => .error .invalidHeader
    | some fmt =>
      match r0 with
      | w0 :: w1 :: w2 :: w3 :: r1 =>
        match r1 with
        | h0 :: h1 :: h2 :: h3 :: r2 =>
          if toInt32 (word32 w0 w1 w2 w3) ≤ 0 ∨ toInt32 (word32 h0 h1 h2 h3) ≤ 0 then
            .error .invalidDims
          else if r2.length < byteCount (szOf fmt (toInt32 (word32 w0 w1 w2 w3)) (toInt32 (word32 h0 h1 h2 h3))) then
            .error .truncatedData
          else
            .ok ⟨toInt32 (word32 w0 w1 w2 w3), toInt32 (word32 h0 h1 h2 h3), fmt,
                 szOf fmt (toInt32 (word32 w0 w1 w2 w3)) (toInt32 (word32 h0 h1 h2 h3)),
                 toWords (r2.take (byteCount (szOf fmt (toInt32 (word32 w0 w1 w2 w3)) (toInt32 (word32 h0 h1 h2 h3)))))⟩
        | _ => .error .shortHeight
      | _ => .error .shortWidth
  | _ => .error .shortTag

/-- Source: write_flow (main.c lines 168-184), the bytes it writes when the
destination can be opened: the 4 tag characters, the two ints, then
`nmemb * sizeof(float)` bytes of the sample buffer. -/
def write_flowBytes (f : FLOfileW) : List ℕ :=
  tagBytes f.fmt ++ (encInt32 f.w ++ (encInt32 f.h ++ encPayload f.data))

/-- Source: the return value of write_flow (main.c lines 168-184): -1 when
fopen of the destination fails, 0 otherwise (fwrite results are never
checked). -/
def write_flowResult (outOpenable : Bool) : ℤ :=
  if outOpenable then 0 else -1

/-- A C-representable valid FLOfile: positive int dimensions, the sample
count coherent with them and with the variant, and samples that are 32-bit
words.  The bounds are inherent to the struct: w, h and nmemb are C ints
and the data buffer holds nmemb 4-byte floats. -/
def ValidW (f : FLOfileW) : Prop :=
  0 < f.w ∧ f.w < 2147483648 ∧ 0 < f.h ∧ f.h < 2147483648 ∧
  f.nmemb = f.w * f.h * npb f.fmt ∧ f.nmemb < 2147483648 ∧
  f.data.length = f.nmemb.toNat ∧ ∀ s ∈ f.data, s < 4294967296

instance (f : FLOfileW) : Decidable (ValidW f) := by
  unfold ValidW
  infer_instance

/-- Source: the exit status of extrapolate (main.c lines 221-291).
inExists models test_files plus the fopen of the input; outOpenable models
the fopen of the destination inside write_flow.  The resampled data has no
influence on the exit status, so it is not recomputed here; the essential
point is that the source calls write_flow on line 287 and discards its
return value. -/
def extrapolateExit (inExists : Bool) (inBytes : List ℕ) (outOpenable : Bool) : ℕ :=
  if inExists = false then 1
  else
    match read_flow inBytes with
    | .error _ => 1
    | .ok _ =>
      let _ignored := write_flowResult outOpenable
      0

/-- The in-memory field as the resampling engine sees it: sample values are
rationals (exact at every concrete input used in the theorems below, where
the C float arithmetic is itself exact). -/
structure FLOfileQ where
  w : ℕ
  h : ℕ
  fmt : FLOformat
  data : List ℚ

/-- The _U_IDX/_V_IDX/_C_IDX macros (main.c lines 213-215):
`(y) * ((flow)->w * (npb)) + (x) * (npb) + ch`. -/
def uidx (w n : ℕ) (x y : ℤ) (ch : ℕ) : ℤ := y * (w * n) + x * n + ch

/-- A read of the sample buffer through the index macros.  The C program
performs a raw array access; the theorem source_access_in_bounds below shows
that within the resampling loop the index is always inside the buffer, so
the default returned here for an out-of-range index is never material. -/
def sampleAt (f : FLOfileQ) (n : ℕ) (x y : ℤ) (ch : ℕ) : ℚ :=
  if 0 ≤ uidx f.w n x y ch then f.data.getD (uidx f.w n x y ch).toNat 0 else 0

/-- Source: interpolate2D_weights (main.c lines 195-210), the weight for
corner offset (wx, wy) of the 2x2 neighbourhood. -/
def interpolate2D_weights (rx ry : ℚ) (wx wy : ℕ) : ℚ :=
  match wx, wy with
  | 0, 0 => (1 - (rx - ⌊rx⌋)) * (1 - (ry - ⌊ry⌋))
  | 1, 0 => (rx - ⌊rx⌋) * (1 - (ry - ⌊ry⌋))
  | 0, 1 => (1 - (rx - ⌊rx⌋)) * (ry - ⌊ry⌋)
  | 1, 1 => (rx - ⌊rx⌋) * (ry - ⌊ry⌋)
  | _, _ => 0

/-- The contribution of corner (wx, wy) to one channel of one destination
cell: body of the double loop of extrapolate (main.c lines 271-279),
including the skip test `ix >= in_flo->w || iy >= in_flo->h` of line 273. -/
def cornerTerm (src : FLOfileQ) (n : ℕ) (rx ry : ℚ) (wx wy ch : ℕ) : ℚ :=
  if (src.w : ℤ) ≤ ⌊rx⌋ + wx ∨ (src.h : ℤ) ≤ ⌊ry⌋ + wy then 0
  else interpolate2D_weights rx ry wx wy * sampleAt src n (⌊rx⌋ + wx) (⌊ry⌋ + wy) ch

/-- One channel of one destination cell of extrapolate (main.c lines
254-285): map (x, y) back to source coordinates and accumulate the four
corner contributions in loop order. -/
def resampleCell (src : FLOfileQ) (n : ℕ) (sx sy : ℚ) (x y ch : ℕ) : ℚ :=
  cornerTerm src n ((x : ℚ) / sx) ((y : ℚ) / sy) 0 0 ch
    + cornerTerm src n ((x : ℚ) / sx) ((y : ℚ) / sy) 1 0 ch
    + cornerTerm src n ((x : ℚ) / sx) ((y : ℚ) / sy) 0 1 ch
    + cornerTerm src n ((x : ℚ) / sx) ((y : ℚ) / sy) 1 1 ch

/-- `if (sx <= 0.0f) sx = (float)w / (float)in_flo->w;` (main.c lines
250-251). -/
def defaultScale (s : ℚ) (target srcDim : ℕ) : ℚ :=
  if s ≤ 0 then (target : ℚ) / (srcDim : ℚ) else s

/-- `out_flo->nmemb = npb * w * h;` (main.c line 243): the destination
sample count is computed in wrapping signed 32-bit int arithmetic,
left-associated as in C.  The allocated buffer holds that many floats (a
negative wrapped count makes malloc fail in C, giving an empty buffer
here). -/
def outAlloc (fmt : FLOformat) (w h : ℕ) : ℕ :=
  (wrap32 (wrap32 ((npb fmt : ℤ) * (w : ℤ)) * (h : ℤ))).toNat

/-- Source: the in-memory transform performed by extrapolate (main.c lines
229-285): allocate a buffer of outAlloc floats (the wrapping npb*w*h of
line 243) and fill position i with the value the loop computes for the cell
and channel that own position i, i.e. position (y*w + x)*npb + ch holds the
resampled channel ch of cell (x, y).  When npb*w*h does not wrap this is
every destination sample exactly once; in the wrap regime the C loop also
writes past the allocation (undefined behaviour), and the model keeps the
allocated prefix. -/
def extrapolateField (src : FLOfileQ) (w h : ℕ) (sx0 sy0 : ℚ) : FLOfileQ :=
  { w := w, h := h, fmt := src.fmt,
    data := (List.range (outAlloc src.fmt w h)).map fun i =>
      resampleCell src (npb src.fmt)
        (defaultScale sx0 w src.w) (defaultScale sy0 h src.h)
        ((i / npb src.fmt) % w) ((i / npb src.fmt) / w) (i % npb src.fmt) }

/-- A C-representable valid in-memory field: positive dimensions and a
sample buffer of the advertised size, which must itself be a 32-bit int
count — the bound is inherent to the struct FLOfile, whose nmemb field
(equal to w*h*channels for a valid field) is a C int. -/
def ValidQ (f : FLOfileQ) : Prop :=
  0 < f.w ∧ 0 < f.h ∧ f.data.length = f.w * f.h * npb f.fmt ∧
  f.w * f.h * npb f.fmt < 2147483648

instance (f : FLOfileQ) : Decidable (ValidQ f) := by
  unfold ValidQ
  infer_instance

deriving instance DecidableEq for Except

/-! Helper lemmas for the codec proofs. -/

theorem word32_encWord32 (n : ℕ) (h : n < 4294967296) :
    word32 (n % 256) (n / 256 % 256) (n / 65536 % 256) (n / 16777216 % 256) = n := by
  unfold word32
  omega

theorem toInt32_encInt32 (z : ℤ) (h1 : -2147483648 ≤ z) (h2 : z < 2147483648) :
    toInt32 (word32 ((z % 4294967296).toNat % 256) ((z % 4294967296).toNat / 256 % 256)
      ((z % 4294967296).toNat / 65536 % 256) ((z % 4294967296).toNat / 16777216 % 256)) = z := by
  rw [word32_encWord32 _ (by omega)]
  unfold toInt32
  split <;> omega

theorem wrap32_eq_of_bounds (z : ℤ) (h1 : -2147483648 ≤ z) (h2 : z < 2147483648) :
    wrap32 z = z := by
  unfold wrap32
  omega

theorem encPayload_length (l : List ℕ) : (encPayload l).length = 4 * l.length := by
  induction l with
  | nil => simp [encPayload]
  | cons s r ih => simp [encPayload, encWord32, ih]; omega

theorem toWords_encPayload (l : List ℕ) (h : ∀ s ∈ l, s < 4294967296) :
    toWords (encPayload l) = l := by
  induction l with
  | nil => simp [encPayload, toWords]
  | cons s r ih =>
    have hs : s < 4294967296 := h s (List.mem_cons_self s r)
    have hr : ∀ t ∈ r, t < 4294967296 := fun t ht => h t (List.mem_cons_of_mem s ht)
    simp only [encPayload, encWord32, List.cons_append, List.nil_append, List.append_nil,
      List.append, toWords]
    rw [word32_encWord32 s hs]
    simpa using ih hr

/-- How read_flow consumes a stream whose 12 header bytes encode the given
format and int dimensions: it steps through the tag and dimension reads and
then applies the dimension check, the (wrapping) size computation and the
payload-length check of main.c lines 131-161. -/
theorem read_flow_header (fmt : FLOformat) (w h : ℤ) (payload : List ℕ)
    (hw1 : -2147483648 ≤ w) (hw2 : w < 2147483648)
    (hh1 : -2147483648 ≤ h) (hh2 : h < 2147483648) :
    read_flow (tagBytes fmt ++ (encInt32 w ++ (encInt32 h ++ payload))) =
      (if w ≤ 0 ∨ h ≤ 0 then .error .invalidDims
       else if payload.length < byteCount (szOf fmt w h) then .error .truncatedData
       else .ok ⟨w, h, fmt, szOf fmt w h,
                 toWords (payload.take (byteCount (szOf fmt w h)))⟩) := by
  cases fmt <;>
    simp only [tagBytes, encInt32, encWord32, List.cons_append, List.nil_append,
      read_flow, tagFormat, toInt32_encInt32 w hw1 hw2, toInt32_encInt32 h hh1 hh2] <;>
    norm_num

/-- Claim C2 (confirmed): decoding the byte stream produced by encoding a
valid MotionField yields the same field: same width, height, variant and
bit-for-bit identical sample sequence.  ValidW is C-representability of a
valid field: its dimensions and sample count are (positive) C ints, the
count matches width*height*channels, and every sample is a 32-bit word. -/
theorem encode_decode_roundtrip (f : FLOfileW) (hf : ValidW f) :
    read_flow (write_flowBytes f) = .ok f := by
  obtain ⟨w, h, fmt, nm, data⟩ := f
  unfold ValidW at hf
  dsimp only at hf
  obtain ⟨hw, hwlt, hh, hhlt, hnm, hnmlt, hlen, hdata⟩ := hf
  have h2 : (2 : ℤ) ≤ (npb fmt : ℤ) := by cases fmt <;> norm_num [npb]
  have hwh : 0 < w * h := mul_pos hw hh
  have hprod : w * h ≤ nm := by
    rw [hnm]
    exact le_mul_of_one_le_right hwh.le (by omega)
  have hnmpos : 0 < nm := by
    rw [hnm]
    positivity
  have hszOf : szOf fmt w h = nm := by
    unfold szOf
    rw [wrap32_eq_of_bounds (w * h) (by omega) (by omega)]
    have hass : w * h * (npb fmt : ℤ) = nm := hnm.symm
    rw [hass, wrap32_eq_of_bounds nm (by omega) (by omega)]
  have hbc : byteCount nm = 4 * nm.toNat := by
    unfold byteCount
    omega
  show read_flow (tagBytes fmt ++ (encInt32 w ++ (encInt32 h ++ encPayload data))) = _
  rw [read_flow_header fmt w h (encPayload data) (by omega) hwlt (by omega) hhlt]
  rw [if_neg (by omega : ¬(w ≤ 0 ∨ h ≤ 0))]
  rw [hszOf, hbc, encPayload_length, hlen]
  rw [if_neg (by omega)]
  have htake : 4 * nm.toNat = (encPayload data).length := by
    rw [encPayload_length, hlen]
  rw [htake, List.take_length, toWords_encPayload data hdata]

/-- Witness for encode_decode_roundtrip at a concrete 1x1 Basic field. -/
theorem encode_decode_roundtrip_witness :
    ValidW ⟨1, 1, .FF_FLO, 2, [5, 4294967295]⟩ ∧
    read_flow (write_flowBytes ⟨1, 1, .FF_FLO, 2, [5, 4294967295]⟩) =
      .ok ⟨1, 1, .FF_FLO, 2, [5, 4294967295]⟩ :=
  ⟨by decide, encode_decode_roundtrip ⟨1, 1, .FF_FLO, 2, [5, 4294967295]⟩ (by decide)⟩

/-- Claim C3 (code bug): when the destination cannot be opened, write_flow
returns -1, but extrapolate (main.c line 287) discards that return value and
still returns EXIT_SUCCESS.  The input here is a well-formed 1x1 Basic file,
so the pipeline decodes and resamples fine and then fails to encode, yet the
exit status is 0. -/
theorem encode_failure_ignored :
    write_flowResult false = -1 ∧
    extrapolateExit true
      [80, 73, 69, 72, 1, 0, 0, 0, 1, 0, 0, 0, 0, 0, 0, 0, 0, 0, 0, 0] false = 0 := by
  decide

/-- Claim C8 (code bug): a stream with the Extended tag, width = height =
65536 and an empty payload has far fewer payload bytes than
width*height*channels*4, yet decoding succeeds instead of failing with
TruncatedData: the sample count 65536*65536*3 is computed in wrapping 32-bit
int arithmetic and collapses to 0. -/
theorem truncated_payload_accepted_on_overflow :
    read_flow [80, 73, 69, 73, 0, 0, 1, 0, 0, 0, 1, 0] =
      .ok ⟨65536, 65536, .FF_FLOW, 0, []⟩ ∧
    (0 : ℕ) < 65536 * 65536 * 3 * 4 := by
  decide

/-- Claim C9 (code bug): a successfully decoded field can violate
samples.length == width*height*channels(variant): for the Basic tag with
width = height = 65536 the 32-bit product 65536*65536*2 wraps to 0, decode
succeeds on a header-only stream, and the resulting field has 0 samples
instead of 2^33. -/
theorem decode_length_invariant_overflow :
    read_flow [80, 73, 69, 72, 0, 0, 1, 0, 0, 0, 1, 0] =
      .ok ⟨65536, 65536, .FF_FLO, 0, []⟩ ∧
    (0 : ℕ) ≠ 65536 * 65536 * 2 := by
  decide

/-! Helper lemmas for the resampling proofs. -/

/-- When the exact sample count w*h*npb fits in a signed 32-bit int, the
wrapping destination-size computation of main.c line 243 agrees with it. -/
theorem outAlloc_eq (fmt : FLOformat) (w h : ℕ) (hw : 0 < w) (hh : 0 < h)
    (hfit : w * h * npb fmt < 2147483648) :
    outAlloc fmt w h = w * h * npb fmt := by
  have hcast : ((w * h * npb fmt : ℕ) : ℤ) < 2147483648 := by exact_mod_cast hfit
  have h1 : (npb fmt : ℤ) * (w : ℤ) * (h : ℤ) = ((w * h * npb fmt : ℕ) : ℤ) := by
    push_cast
    ring
  have h2 : 0 ≤ (npb fmt : ℤ) * (w : ℤ) := by positivity
  have h3 : (npb fmt : ℤ) * (w : ℤ) ≤ (npb fmt : ℤ) * (w : ℤ) * (h : ℤ) :=
    le_mul_of_one_le_right h2 (by exact_mod_cast hh)
  have h4 : (npb fmt : ℤ) * (w : ℤ) ≤ ((w * h * npb fmt : ℕ) : ℤ) := h1 ▸ h3
  have h5 : (0 : ℤ) ≤ ((w * h * npb fmt : ℕ) : ℤ) := Int.natCast_nonneg _
  unfold outAlloc
  rw [wrap32_eq_of_bounds ((npb fmt : ℤ) * (w : ℤ)) (by linarith) (by linarith)]
  rw [h1, wrap32_eq_of_bounds _ (by linarith) hcast]
  exact Int.toNat_natCast _

/-- The destination sample the loop of extrapolate stores for cell (x, y),
channel ch, when the destination size does not wrap: position
(y*w + x)*npb + ch of the output buffer holds the resampled value of that
cell and channel, with the default-scale rule of main.c lines 250-251
applied. -/
theorem extrapolateField_getD (src : FLOfileQ) (w h : ℕ) (sx0 sy0 : ℚ) (x y ch : ℕ)
    (hx : x < w) (hy : y < h) (hch : ch < npb src.fmt)
    (hfit : w * h * npb src.fmt < 2147483648) :
    (extrapolateField src w h sx0 sy0).data.getD ((y * w + x) * npb src.fmt + ch) 0 =
      resampleCell src (npb src.fmt) (defaultScale sx0 w src.w) (defaultScale sy0 h src.h) x y ch := by
  set n := npb src.fmt with hn
  have hnpos : 0 < n := npb_pos src.fmt
  have hwpos : 0 < w := lt_of_le_of_lt (Nat.zero_le x) hx
  have hidx : (y * w + x) * n + ch < w * h * n := by
    have h1 : y * w + x + 1 ≤ h * w := by
      have h3 : (y + 1) * w ≤ h * w := Nat.mul_le_mul_right w (by omega)
      have h2 : (y + 1) * w = y * w + w := by ring
      omega
    calc (y * w + x) * n + ch < (y * w + x) * n + n := by omega
      _ = (y * w + x + 1) * n := by ring
      _ ≤ (h * w) * n := Nat.mul_le_mul_right n h1
      _ = w * h * n := by ring
  have e1 : ((y * w + x) * n + ch) / n = y * w + x := by
    rw [mul_comm, Nat.mul_add_div hnpos, Nat.div_eq_of_lt hch, add_zero]
  have e2 : ((y * w + x) * n + ch) % n = ch := by
    rw [mul_comm (y * w + x) n, Nat.mul_add_mod, Nat.mod_eq_of_lt hch]
  have e3 : (y * w + x) % w = x := by
    rw [mul_comm y w, Nat.mul_add_mod, Nat.mod_eq_of_lt hx]
  have e4 : (y * w + x) / w = y := by
    rw [mul_comm, Nat.mul_add_div hwpos, Nat.div_eq_of_lt hx, add_zero]
  have hhpos : 0 < h := lt_of_le_of_lt (Nat.zero_le y) hy
  unfold extrapolateField
  dsimp only
  rw [outAlloc_eq src.fmt w h hwpos hhpos hfit]
  rw [List.getD_eq_getElem?_getD, List.getElem?_map, List.getElem?_range hidx]
  dsimp only [Option.map_some', Option.getD_some]
  rw [e1, e2, e3, e4]

theorem floor_q_half_one : ⌊(1 : ℚ) / 2⌋ = 0 := by
  rw [Int.floor_eq_iff]
  norm_num

theorem floor_q_half_three : ⌊(3 : ℚ) / 2⌋ = 1 := by
  rw [Int.floor_eq_iff]
  norm_num

/-- Claim C5 (code bug): the resampled field's sample-buffer length does
NOT always equal targetWidth * targetHeight * channels: extrapolate
(main.c line 243) computes out_flo->nmemb = npb*w*h in wrapping 32-bit int
arithmetic, so for a valid 1x1 Basic source and target 46341 x 46341 the
count 2*46341*46341 = 4294976562 wraps to 9266 — the allocated buffer has
9266 samples, not W*H*channels (and the loop then writes past it).  The
requested dimensions and variant are still stored. -/
theorem dimension_invariant_overflow :
    ValidQ ⟨1, 1, .FF_FLO, [0, 0]⟩ ∧
    (extrapolateField ⟨1, 1, .FF_FLO, [0, 0]⟩ 46341 46341 1 1).w = 46341 ∧
    (extrapolateField ⟨1, 1, .FF_FLO, [0, 0]⟩ 46341 46341 1 1).h = 46341 ∧
    (extrapolateField ⟨1, 1, .FF_FLO, [0, 0]⟩ 46341 46341 1 1).data.length = 9266 ∧
    (9266 : ℕ) ≠ 46341 * 46341 * npb FLOformat.FF_FLO := by
  refine ⟨by decide, rfl, rfl, ?_, by decide⟩
  simp only [extrapolateField, List.length_map, List.length_range]
  decide

/-- The part of the dimension invariant the code does implement: when the
exact sample count fits in a signed 32-bit int, the resampled field has the
requested dimensions, the source's variant, and a sample buffer of length
W * H * channels(variant). -/
theorem dimension_invariant_no_overflow (f : FLOfileQ) (W H : ℕ) (sx0 sy0 : ℚ)
    (_hf : ValidQ f) (hW : 0 < W) (hH : 0 < H)
    (hfit : W * H * npb f.fmt < 2147483648) :
    (extrapolateField f W H sx0 sy0).w = W ∧
    (extrapolateField f W H sx0 sy0).h = H ∧
    (extrapolateField f W H sx0 sy0).fmt = f.fmt ∧
    (extrapolateField f W H sx0 sy0).data.length = W * H * npb f.fmt := by
  refine ⟨rfl, rfl, rfl, ?_⟩
  simp only [extrapolateField, List.length_map, List.length_range]
  exact outAlloc_eq f.fmt W H hW hH hfit

/-- Claim C4 (confirmed): resampling the Basic 2x2 field with samples
[1,0, 2,0, 0,1, 0,2] to 4x4 with scaleX = scaleY = 2 places the exact
source value (1,0) at destination cell (0,0) (buffer positions 0 and 1) and
the value (3/4, 3/4) at destination cell (1,1) (buffer positions 10 and
11). -/
theorem end_to_end_example :
    (extrapolateField ⟨2, 2, .FF_FLO, [1, 0, 2, 0, 0, 1, 0, 2]⟩ 4 4 2 2).data.getD 0 0 = 1 ∧
    (extrapolateField ⟨2, 2, .FF_FLO, [1, 0, 2, 0, 0, 1, 0, 2]⟩ 4 4 2 2).data.getD 1 0 = 0 ∧
    (extrapolateField ⟨2, 2, .FF_FLO, [1, 0, 2, 0, 0, 1, 0, 2]⟩ 4 4 2 2).data.getD 10 0 = 3/4 ∧
    (extrapolateField ⟨2, 2, .FF_FLO, [1, 0, 2, 0, 0, 1, 0, 2]⟩ 4 4 2 2).data.getD 11 0 = 3/4 := by
  have h00u : (extrapolateField ⟨2, 2, .FF_FLO, [1, 0, 2, 0, 0, 1, 0, 2]⟩ 4 4 2 2).data.getD 0 0
      = resampleCell ⟨2, 2, .FF_FLO, [1, 0, 2, 0, 0, 1, 0, 2]⟩ 2 2 2 0 0 0 :=
    extrapolateField_getD ⟨2, 2, .FF_FLO, [1, 0, 2, 0, 0, 1, 0, 2]⟩ 4 4 2 2 0 0 0
      (by norm_num) (by norm_num) (by norm_num [npb]) (by norm_num [npb])
  have h00v : (extrapolateField ⟨2, 2, .FF_FLO, [1, 0, 2, 0, 0, 1, 0, 2]⟩ 4 4 2 2).data.getD 1 0
      = resampleCell ⟨2, 2, .FF_FLO, [1, 0, 2, 0, 0, 1, 0, 2]⟩ 2 2 2 0 0 1 :=
    extrapolateField_getD ⟨2, 2, .FF_FLO, [1, 0, 2, 0, 0, 1, 0, 2]⟩ 4 4 2 2 0 0 1
      (by norm_num) (by norm_num) (by norm_num [npb]) (by norm_num [npb])
  have h11u : (extrapolateField ⟨2, 2, .FF_FLO, [1, 0, 2, 0, 0, 1, 0, 2]⟩ 4 4 2 2).data.getD 10 0
      = resampleCell ⟨2, 2, .FF_FLO, [1, 0, 2, 0, 0, 1, 0, 2]⟩ 2 2 2 1 1 0 :=
    extrapolateField_getD ⟨2, 2, .FF_FLO, [1, 0, 2, 0, 0, 1, 0, 2]⟩ 4 4 2 2 1 1 0
      (by norm_num) (by norm_num) (by norm_num [npb]) (by norm_num [npb])
  have h11v : (extrapolateField ⟨2, 2, .FF_FLO, [1, 0, 2, 0, 0, 1, 0, 2]⟩ 4 4 2 2).data.getD 11 0
      = resampleCell ⟨2, 2, .FF_FLO, [1, 0, 2, 0, 0, 1, 0, 2]⟩ 2 2 2 1 1 1 :=
    extrapolateField_getD ⟨2, 2, .FF_FLO, [1, 0, 2, 0, 0, 1, 0, 2]⟩ 4 4 2 2 1 1 1
      (by norm_num) (by norm_num) (by norm_num [npb]) (by norm_num [npb])
  refine ⟨?_, ?_, ?_, ?_⟩
  · rw [h00u]
    simp only [resampleCell, cornerTerm, interpolate2D_weights, sampleAt, uidx]
    norm_num [show ([1, 0, 2, 0, 0, 1, 0, 2] : List ℚ)[Int.toNat 0] = 1 from rfl,
      show ([1, 0, 2, 0, 0, 1, 0, 2] : List ℚ)[Int.toNat 2] = 2 from rfl,
      show ([1, 0, 2, 0, 0, 1, 0, 2] : List ℚ)[Int.toNat 4] = 0 from rfl,
      show ([1, 0, 2, 0, 0, 1, 0, 2] : List ℚ)[Int.toNat 6] = 0 from rfl]
  · rw [h00v]
    simp only [resampleCell, cornerTerm, interpolate2D_weights, sampleAt, uidx]
    norm_num [show ([1, 0, 2, 0, 0, 1, 0, 2] : List ℚ)[Int.toNat 1] = 0 from rfl,
      show ([1, 0, 2, 0, 0, 1, 0, 2] : List ℚ)[Int.toNat 3] = 0 from rfl,
      show ([1, 0, 2, 0, 0, 1, 0, 2] : List ℚ)[Int.toNat 5] = 1 from rfl,
      show ([1, 0, 2, 0, 0, 1, 0, 2] : List ℚ)[Int.toNat 7] = 2 from rfl]
  · rw [h11u]
    simp only [resampleCell, cornerTerm, interpolate2D_weights, sampleAt, uidx]
    norm_num [floor_q_half_one,
      show ([1, 0, 2, 0, 0, 1, 0, 2] : List ℚ)[Int.toNat 0] = 1 from rfl,
      show ([1, 0, 2, 0, 0, 1, 0, 2] : List ℚ)[Int.toNat 2] = 2 from rfl,
      show ([1, 0, 2, 0, 0, 1, 0, 2] : List ℚ)[Int.toNat 4] = 0 from rfl,
      show ([1, 0, 2, 0, 0, 1, 0, 2] : List ℚ)[Int.toNat 6] = 0 from rfl]
  · rw [h11v]
    simp only [resampleCell, cornerTerm, interpolate2D_weights, sampleAt, uidx]
    norm_num [floor_q_half_one,
      show ([1, 0, 2, 0, 0, 1, 0, 2] : List ℚ)[Int.toNat 1] = 0 from rfl,
      show ([1, 0, 2, 0, 0, 1, 0, 2] : List ℚ)[Int.toNat 3] = 0 from rfl,
      show ([1, 0, 2, 0, 0, 1, 0, 2] : List ℚ)[Int.toNat 5] = 1 from rfl,
      show ([1, 0, 2, 0, 0, 1, 0, 2] : List ℚ)[Int.toNat 7] = 2 from rfl]

/-- With scale factors 1 the bilinear weights collapse to weight 1 on the
(x, y) corner, so the resampled value is the source sample itself. -/
theorem resampleCell_one (f : FLOfileQ) (n : ℕ) (x y ch : ℕ) (hx : x < f.w) (hy : y < f.h) :
    resampleCell f n 1 1 x y ch = sampleAt f n x y ch := by
  have hfx : ⌊((x : ℚ) / 1)⌋ = (x : ℤ) := by rw [div_one]; exact Int.floor_natCast x
  have hfy : ⌊((y : ℚ) / 1)⌋ = (y : ℤ) := by rw [div_one]; exact Int.floor_natCast y
  have hsx : ((x : ℚ) / 1 - (((x : ℕ) : ℤ) : ℚ)) = 0 := by push_cast; ring
  have hsy : ((y : ℚ) / 1 - (((y : ℕ) : ℤ) : ℚ)) = 0 := by push_cast; ring
  simp only [resampleCell, cornerTerm, interpolate2D_weights, hfx, hfy, hsx, hsy,
    Nat.cast_zero, Nat.cast_one, add_zero, zero_mul, mul_zero, ite_self, sub_zero,
    one_mul, mul_one]
  rw [if_neg]
  push_neg
  constructor
  · exact_mod_cast hx
  · exact_mod_cast hy

/-- Claim C6 (confirmed): resampling a valid field to its own dimensions
with scaleX = scaleY = 1 reproduces the source value exactly at every cell
(interior cells in particular) and every channel. -/
theorem identity_scaling (f : FLOfileQ) (x y ch : ℕ) (hf : ValidQ f)
    (hx : x < f.w) (hy : y < f.h) (hch : ch < npb f.fmt) :
    (extrapolateField f f.w f.h 1 1).data.getD ((y * f.w + x) * npb f.fmt + ch) 0
      = f.data.getD ((y * f.w + x) * npb f.fmt + ch) 0 := by
  rw [extrapolateField_getD f f.w f.h 1 1 x y ch hx hy hch hf.2.2.2]
  rw [show defaultScale 1 f.w f.w = 1 from by norm_num [defaultScale]]
  rw [show defaultScale 1 f.h f.h = 1 from by norm_num [defaultScale]]
  rw [resampleCell_one f (npb f.fmt) x y ch hx hy]
  unfold sampleAt uidx
  rw [if_pos (by positivity)]
  congr 1
  rw [show ((y : ℤ) * ((f.w : ℤ) * (npb f.fmt : ℤ)) + (x : ℤ) * (npb f.fmt : ℤ) + (ch : ℤ))
        = (((y * f.w + x) * npb f.fmt + ch : ℕ) : ℤ) from by push_cast; ring]
  exact Int.toNat_natCast _

/-- Witness for identity_scaling at a concrete 2x2 Basic field, cell (1, 0),
channel 1 (buffer position 3). -/
theorem identity_scaling_witness :
    ValidQ ⟨2, 2, .FF_FLO, [1, 2, 3, 4, 5, 6, 7, 8]⟩ ∧
    (extrapolateField ⟨2, 2, .FF_FLO, [1, 2, 3, 4, 5, 6, 7, 8]⟩ 2 2 1 1).data.getD 3 0
      = ([1, 2, 3, 4, 5, 6, 7, 8] : List ℚ).getD 3 0 :=
  ⟨by decide,
   identity_scaling ⟨2, 2, .FF_FLO, [1, 2, 3, 4, 5, 6, 7, 8]⟩ 1 0 1
     (by decide) (by decide) (by decide) (by norm_num [npb])⟩

theorem defaultScale_nonpos (s : ℚ) (T d : ℕ) (hs : s ≤ 0) :
    defaultScale s T d = (T : ℚ) / (d : ℚ) := if_pos hs

theorem defaultScale_idem (T d : ℕ) :
    defaultScale ((T : ℚ) / (d : ℚ)) T d = (T : ℚ) / (d : ℚ) := by
  unfold defaultScale
  split
  · rfl
  · rfl

/-- Claim C7 (confirmed): a non-positive (or absent, modelled by the -1 the
CLI passes) scale defaults to targetDim / sourceDim, and in particular
resampling a 4x4 source to 8x8 with omitted scales is identical to passing
scaleX = scaleY = 2. -/
theorem default_scale_derivation :
    (∀ (f : FLOfileQ) (W H : ℕ) (sx0 sy0 : ℚ), sx0 ≤ 0 → sy0 ≤ 0 →
       extrapolateField f W H sx0 sy0
         = extrapolateField f W H ((W : ℚ) / (f.w : ℚ)) ((H : ℚ) / (f.h : ℚ))) ∧
    (∀ (f : FLOfileQ) (sx0 sy0 : ℚ), f.w = 4 → f.h = 4 → sx0 ≤ 0 → sy0 ≤ 0 →
       extrapolateField f 8 8 sx0 sy0 = extrapolateField f 8 8 2 2) := by
  have hgen : ∀ (f : FLOfileQ) (W H : ℕ) (sx0 sy0 : ℚ), sx0 ≤ 0 → sy0 ≤ 0 →
      extrapolateField f W H sx0 sy0
        = extrapolateField f W H ((W : ℚ) / (f.w : ℚ)) ((H : ℚ) / (f.h : ℚ)) := by
    intro f W H sx0 sy0 hx hy
    unfold extrapolateField
    rw [defaultScale_nonpos sx0 W f.w hx, defaultScale_nonpos sy0 H f.h hy,
      defaultScale_idem W f.w, defaultScale_idem H f.h]
  refine ⟨hgen, ?_⟩
  intro f sx0 sy0 hw4 hh4 hx hy
  rw [hgen f 8 8 sx0 sy0 hx hy]
  unfold extrapolateField
  rw [defaultScale_idem 8 f.w, defaultScale_idem 8 f.h,
    show defaultScale (2 : ℚ) 8 f.w = 2 from by norm_num [defaultScale],
    show defaultScale (2 : ℚ) 8 f.h = 2 from by norm_num [defaultScale],
    hw4, hh4]
  norm_num

/-- Witness for default_scale_derivation: a concrete all-zero 4x4 Basic
source, resampled to 8x8 with the sentinel scales -1 the CLI uses for
omitted arguments. -/
theorem default_scale_derivation_witness :
    ((-1 : ℚ) ≤ 0) ∧
    extrapolateField ⟨4, 4, .FF_FLO, List.replicate 32 0⟩ 8 8 (-1) (-1)
      = extrapolateField ⟨4, 4, .FF_FLO, List.replicate 32 0⟩ 8 8 2 2 :=
  ⟨by norm_num,
   default_scale_derivation.2 ⟨4, 4, .FF_FLO, List.replicate 32 0⟩ (-1) (-1)
     rfl rfl (by norm_num) (by norm_num)⟩

/-- The constant 2x2 Basic field with every sample equal to k, the source of
the boundary-attenuation property. -/
def boundarySrc (k : ℚ) : FLOfileQ := ⟨2, 2, .FF_FLO, [k, k, k, k, k, k, k, k]⟩

/-- Resampling the constant-k 2x2 field to 4x4 with scale 2: destination
cell (3, 3) maps to source coordinate (1.5, 1.5), three of the four corners
fall outside the source and are skipped, and only the weight-1/4 corner
(1, 1) survives, so the cell value is k/4. -/
theorem boundary_cell_value (k : ℚ) :
    (extrapolateField (boundarySrc k) 4 4 2 2).data.getD 30 0 = k / 4 := by
  have h33 : (extrapolateField (boundarySrc k) 4 4 2 2).data.getD 30 0
      = resampleCell (boundarySrc k) 2 2 2 3 3 0 :=
    extrapolateField_getD (boundarySrc k) 4 4 2 2 3 3 0
      (by norm_num) (by norm_num) (by norm_num [npb, boundarySrc])
      (by norm_num [npb, boundarySrc])
  have hlen : Int.toNat 6 < ([k, k, k, k, k, k, k, k] : List ℚ).length := by norm_num
  have hElem : ([k, k, k, k, k, k, k, k] : List ℚ)[Int.toNat 6] = k := rfl
  rw [h33]
  simp only [resampleCell, cornerTerm, interpolate2D_weights, sampleAt, uidx, boundarySrc]
  norm_num [floor_q_half_three, hElem]
  ring

/-- Claim C1 (corrected): out-of-range corners contribute nothing (first
conjunct: the skip test of main.c line 273 zeroes the whole corner term, so
its weight is not redistributed), and for the constant-k 2x2 source
resampled to 4x4 with scale 2 the past-the-edge cell (3, 3) gets exactly
k/4, which is strictly less than k for every POSITIVE k.  The claim as
frozen asserts the strict inequality for every NONZERO k, which fails for
negative k (see boundary_attenuation_cex). -/
theorem boundary_attenuation_amended (k : ℚ) (hk : 0 < k) :
    (∀ (src : FLOfileQ) (n : ℕ) (rx ry : ℚ) (wx wy ch : ℕ),
        ((src.w : ℤ) ≤ ⌊rx⌋ + wx ∨ (src.h : ℤ) ≤ ⌊ry⌋ + wy) →
        cornerTerm src n rx ry wx wy ch = 0) ∧
    (extrapolateField (boundarySrc k) 4 4 2 2).data.getD 30 0 = k / 4 ∧
    (extrapolateField (boundarySrc k) 4 4 2 2).data.getD 30 0 < k := by
  refine ⟨?_, boundary_cell_value k, ?_⟩
  · intro src n rx ry wx wy ch h
    simp only [cornerTerm]
    rw [if_pos h]
  · rw [boundary_cell_value k]
    linarith

/-- Counterexample to claim C1 as frozen: k = -1 is a nonzero constant, the
last destination row/column maps past the last source row/column, yet the
edge-cell value -1/4 is NOT strictly less than k = -1 (its magnitude is
smaller, but its signed value is larger). -/
theorem boundary_attenuation_cex :
    ((-1 : ℚ) ≠ 0) ∧
    ¬((extrapolateField (boundarySrc (-1)) 4 4 2 2).data.getD 30 0 < -1) := by
  refine ⟨by norm_num, ?_⟩
  rw [boundary_cell_value (-1)]
  norm_num

/-- Witness for boundary_attenuation_amended at k = 1, instantiating both
the general skip conjunct (corner (1, 0) of the cell mapping to (1.5, 1.5))
and the concrete edge-cell value. -/
theorem boundary_attenuation_amended_witness :
    (0 : ℚ) < 1 ∧
    cornerTerm (boundarySrc 1) 2 (3 / 2) (3 / 2) 1 0 0 = 0 ∧
    (extrapolateField (boundarySrc 1) 4 4 2 2).data.getD 30 0 = 1 / 4 ∧
    (extrapolateField (boundarySrc 1) 4 4 2 2).data.getD 30 0 < 1 :=
  ⟨by norm_num,
   (boundary_attenuation_amended 1 (by norm_num)).1 (boundarySrc 1) 2 (3 / 2) (3 / 2) 1 0 0
     (Or.inl (by rw [floor_q_half_three]; norm_num [boundarySrc])),
   (boundary_attenuation_amended 1 (by norm_num)).2.1,
   (boundary_attenuation_amended 1 (by norm_num)).2.2⟩

/-- Claim C10 (confirmed): although the skip test of main.c line 273 checks
only the upper bounds, every non-skipped corner access of the resampling
loop is inside the source buffer: for a destination cell (x, y) with x, y
natural and positive effective scales, floor(x/sx) and floor(y/sy) are
non-negative, so together with the upper-bound test the flat index
uidx = iy*(srcW*npb) + ix*npb + ch lies in [0, srcW*srcH*npb). -/
theorem source_access_in_bounds (srcW srcH n : ℕ) (sx sy : ℚ) (x y wx wy ch : ℕ)
    (hsx : 0 < sx) (hsy : 0 < sy) (hch : ch < n)
    (hin : ¬((srcW : ℤ) ≤ ⌊(x : ℚ) / sx⌋ + wx ∨ (srcH : ℤ) ≤ ⌊(y : ℚ) / sy⌋ + wy)) :
    0 ≤ uidx srcW n (⌊(x : ℚ) / sx⌋ + wx) (⌊(y : ℚ) / sy⌋ + wy) ch ∧
    uidx srcW n (⌊(x : ℚ) / sx⌋ + wx) (⌊(y : ℚ) / sy⌋ + wy) ch < ((srcW * srcH * n : ℕ) : ℤ) := by
  push_neg at hin
  obtain ⟨hix, hiy⟩ := hin
  have hfx : 0 ≤ ⌊(x : ℚ) / sx⌋ := Int.floor_nonneg.mpr (div_nonneg (Nat.cast_nonneg x) hsx.le)
  have hfy : 0 ≤ ⌊(y : ℚ) / sy⌋ := Int.floor_nonneg.mpr (div_nonneg (Nat.cast_nonneg y) hsy.le)
  have hix0 : 0 ≤ ⌊(x : ℚ) / sx⌋ + (wx : ℤ) := add_nonneg hfx (Int.natCast_nonneg wx)
  have hiy0 : 0 ≤ ⌊(y : ℚ) / sy⌋ + (wy : ℤ) := add_nonneg hfy (Int.natCast_nonneg wy)
  have hchz : (ch : ℤ) ≤ (n : ℤ) - 1 := by
    have hcn : (ch : ℤ) < (n : ℤ) := by exact_mod_cast hch
    linarith
  unfold uidx
  constructor
  · have t1 : (0 : ℤ) ≤ (⌊(y : ℚ) / sy⌋ + (wy : ℤ)) * ((srcW : ℤ) * (n : ℤ)) :=
      mul_nonneg hiy0 (by positivity)
    have t2 : (0 : ℤ) ≤ (⌊(x : ℚ) / sx⌋ + (wx : ℤ)) * (n : ℤ) :=
      mul_nonneg hix0 (by positivity)
    have t3 : (0 : ℤ) ≤ (ch : ℤ) := Int.natCast_nonneg ch
    push_cast at t1 t2
    linarith
  · have e1 : (⌊(y : ℚ) / sy⌋ + (wy : ℤ)) * ((srcW : ℤ) * (n : ℤ))
        ≤ ((srcH : ℤ) - 1) * ((srcW : ℤ) * (n : ℤ)) :=
      mul_le_mul_of_nonneg_right (by linarith) (by positivity)
    have e2 : (⌊(x : ℚ) / sx⌋ + (wx : ℤ)) * (n : ℤ) ≤ ((srcW : ℤ) - 1) * (n : ℤ) :=
      mul_le_mul_of_nonneg_right (by linarith) (by positivity)
    push_cast
    push_cast at e1 e2
    nlinarith [e1, e2, hchz]

/-- Witness for source_access_in_bounds: 2x2 Basic source, scale 2,
destination cell (1, 1), corner (0, 0), channel 0: the corner is (0, 0) and
its flat index 0 lies in [0, 8). -/
theorem source_access_in_bounds_witness :
    (0 : ℚ) < 2 ∧ (0 : ℕ) < 2 ∧
    ¬((2 : ℤ) ≤ ⌊((1 : ℕ) : ℚ) / 2⌋ + (0 : ℕ) ∨ (2 : ℤ) ≤ ⌊((1 : ℕ) : ℚ) / 2⌋ + (0 : ℕ)) ∧
    (0 ≤ uidx 2 2 (⌊((1 : ℕ) : ℚ) / 2⌋ + (0 : ℕ)) (⌊((1 : ℕ) : ℚ) / 2⌋ + (0 : ℕ)) 0 ∧
     uidx 2 2 (⌊((1 : ℕ) : ℚ) / 2⌋ + (0 : ℕ)) (⌊((1 : ℕ) : ℚ) / 2⌋ + (0 : ℕ)) 0
       < ((2 * 2 * 2 : ℕ) : ℤ)) :=
  ⟨by norm_num, by norm_num, by norm_num [floor_q_half_one],
   source_access_in_bounds 2 2 2 2 2 1 1 0 0 0 (by norm_num) (by norm_num) (by norm_num)
     (by norm_num [floor_q_half_one])⟩

/-! Supplementary codec theorems: the parts of the malformed-input policy
that the code does implement correctly (for dimensions whose sample count
does not overflow the 32-bit sample-count arithmetic). -/

/-- A 4-byte tag matching neither identifier is rejected with the
invalid-header error. -/
theorem invalid_tag_rejected (b0 b1 b2 b3 : ℕ) (rest : List ℕ)
    (h : tagFormat b0 b1 b2 b3 = none) :
    read_flow (b0 :: b1 :: b2 :: b3 :: rest) = .error .invalidHeader := by
  simp [read_flow, h]

/-- A non-positive decoded width or height is rejected with the
invalid-dimensions error. -/
theorem nonpositive_dims_rejected (fmt : FLOformat) (w h : ℤ) (rest : List ℕ)
    (hw1 : -2147483648 ≤ w) (hw2 : w < 2147483648)
    (hh1 : -2147483648 ≤ h) (hh2 : h < 2147483648)
    (hnp : w ≤ 0 ∨ h ≤ 0) :
    read_flow (tagBytes fmt ++ (encInt32 w ++ (encInt32 h ++ rest))) = .error .invalidDims := by
  rw [read_flow_header fmt w h rest hw1 hw2 hh1 hh2, if_pos hnp]

/-- When the exact sample count fits in a 32-bit int, a short payload is
rejected with the truncated-data error; the overflow hypothesis hsz is
exactly what the wrap counterexamples violate. -/
theorem truncated_payload_rejected (fmt : FLOformat) (w h : ℤ) (payload : List ℕ)
    (hw : 0 < w) (hh : 0 < h) (hsz : w * h * npb fmt < 2147483648)
    (hlen : payload.length < (w * h * npb fmt).toNat * 4) :
    read_flow (tagBytes fmt ++ (encInt32 w ++ (encInt32 h ++ payload))) =
      .error .truncatedData := by
  have h2 : (2 : ℤ) ≤ (npb fmt : ℤ) := by cases fmt <;> norm_num [npb]
  have hwh : 0 < w * h := mul_pos hw hh
  have hm : 0 < w * h * (npb fmt : ℤ) := by positivity
  have hprod : w * h ≤ w * h * (npb fmt : ℤ) := le_mul_of_one_le_right hwh.le (by omega)
  have hwle : w ≤ w * h := le_mul_of_one_le_right hw.le (by omega)
  have hhle : h ≤ w * h := by
    have hcomm := le_mul_of_one_le_right hh.le (by omega : (1 : ℤ) ≤ w)
    linarith [hcomm, mul_comm h w]
  rw [read_flow_header fmt w h payload (by omega) (by omega) (by omega) (by omega)]
  rw [if_neg (by omega : ¬(w ≤ 0 ∨ h ≤ 0))]
  have hsz2 : szOf fmt w h = w * h * (npb fmt : ℤ) := by
    unfold szOf
    rw [wrap32_eq_of_bounds (w * h) (by omega) (by omega),
      wrap32_eq_of_bounds (w * h * (npb fmt : ℤ)) (by omega) (by omega)]
  rw [hsz2]
  have hbc : byteCount (w * h * (npb fmt : ℤ)) = (w * h * (npb fmt : ℤ)).toNat * 4 := by
    unfold byteCount
    have hb1 : 0 < w * h * (npb fmt : ℤ) := hm
    have hb2 : w * h * (npb fmt : ℤ) < 2147483648 := hsz
    generalize w * h * (npb fmt : ℤ) = m at hb1 hb2
    omega
  rw [hbc, if_pos (by omega)]
